import Mathlib

/-!
Shallow embedding of `gpytorch/utils/contour_integral_quad.py` and
`gpytorch/lazy/non_lazy_variable.py`.

Modelling conventions:
* Scalars are `ℚ` (exact rationals standing for the source's floats).
* A batched scalar tensor is a `BTensor`: a shape together with its
  row-major flattened data, mirroring how the source flattens (`k2.flatten()`)
  and views (`flat_shifts.view(...)`) its per-batch-element tensors.
* The right-hand side `rhs` and the per-shift solution tensors are kept at an
  abstract type `M`, since no modelled claim inspects their entries; the
  operator acts on them through `Operator.matmul` (`lazy_tensor._matmul`).
  Applying `_matmul` to the stacked solves tensor is modelled as mapping
  `matmul` over the list of per-shift slices (torch matmul broadcasts over
  the leading stacking dimension).
* External collaborators that are not part of the two source files —
  `lanczos_tridiag` together with `torch.symeig` (whose numerical failure
  raises `RuntimeError`, modelled as `none`), scipy's `ellipk`/`ellipj`,
  `np.sqrt`, `math.pi`, and the shifted `minres` solver — are fields of an
  `Env` record, so every theorem quantifies over their behaviour.
* The complex arithmetic of the contour loop (`1j * sn * cn`, `np.real`,
  `np.power(w, 2)`) is carried out in a small exact complex type `Cx`.
-/

/-- Maximum of a list of rationals (`tensor.max()` on a nonempty tensor);
`0` on the empty list, which never occurs for the source's tensors. -/
def listMax : List ℚ → ℚ
  | [] => 0
  | x :: xs => xs.foldl max x

/-- Minimum of a list of rationals (`tensor.min()`). -/
def listMin : List ℚ → ℚ
  | [] => 0
  | x :: xs => xs.foldl min x

/-- Mean of a list of rationals (`tensor.mean()`). -/
def listMean (l : List ℚ) : ℚ :=
  l.sum / (l.length : ℚ)

/-- A batched scalar tensor: a shape and its row-major flattened data. -/
structure BTensor where
  shape : List ℕ
  data : List ℚ
  deriving DecidableEq

/-- All multi-indices of a shape, in row-major order. -/
def shapeIndices : List ℕ → List (List ℕ)
  | [] => [[]]
  | d :: ds =>
    (List.range d).foldr (fun i acc => ((shapeIndices ds).map fun ix => i :: ix) ++ acc) []

/-- Row-major flat position of a multi-index within a shape. -/
def flatPos : List ℕ → List ℕ → ℕ
  | _, [] => 0
  | [], _ => 0
  | _ :: ds, i :: is => i * ds.prod + flatPos ds is

/-- Source multi-index that a broadcast target multi-index reads from:
align shapes on the right, and read position 0 along size-1 source dims. -/
def srcIndex (srcShape : List ℕ) (ix : List ℕ) : List ℕ :=
  (List.zip srcShape (ix.drop (ix.length - srcShape.length))).map
    fun p => if p.1 = 1 then 0 else p.2

/-- `torch.Tensor.expand`: broadcast a tensor to a larger target shape;
each target entry reads the source entry its multi-index broadcasts from. -/
def BTensor.expand (t : BTensor) (tgt : List ℕ) : BTensor :=
  ⟨tgt, (shapeIndices tgt).map fun ix => t.data.getD (flatPos t.shape (srcIndex t.shape ix)) 0⟩

/-- Reduction along the last dimension (`tensor.max(dim=-1)[0]` /
`tensor.min(dim=-1)[0]`): the data splits into contiguous chunks of the
last dimension's length, one chunk per remaining batch element. -/
def reduceLast (f : List ℚ → ℚ) (t : BTensor) : BTensor :=
  ⟨t.shape.dropLast,
    (List.range t.shape.dropLast.prod).map fun b =>
      f ((t.data.drop (b * t.shape.getLastD 1)).take (t.shape.getLastD 1))⟩

/-- Global minimum over all entries (`tensor.min()` with no `dim`). -/
def minAll (t : BTensor) : ℚ :=
  listMin t.data

/-- Exact complex numbers over `ℚ`, for the contour loop's `1j` arithmetic. -/
structure Cx where
  re : ℚ
  im : ℚ
  deriving DecidableEq

/-- Complex multiplication. -/
def Cx.mul (a b : Cx) : Cx :=
  ⟨a.re * b.re - a.im * b.im, a.re * b.im + a.im * b.re⟩

/-- The imaginary unit `1j`. -/
def Cx.I : Cx :=
  ⟨0, 1⟩

/-- Embedding of a real scalar. -/
def Cx.ofRat (q : ℚ) : Cx :=
  ⟨q, 0⟩

/-- Scalar multiplication of a complex number by a real scalar. -/
def Cx.smul (q : ℚ) (z : Cx) : Cx :=
  ⟨q * z.re, q * z.im⟩

/-- The implicit matrix operator (`lazy_tensor`): its batch shape, its
matrix-vector product `_matmul`, and its `diag()` values. -/
structure Operator (M : Type) where
  batchShape : List ℕ
  matmul : M → M
  diag : BTensor

/-- External collaborators of `contour_integral_quad` that live outside the
two source files, packaged as one record:
`statsOn` is `settings.record_ciq_stats.on()`;
`lanczosEigs` is the outcome of `lanczos_tridiag` followed by
`lanczos_mat.symeig()[0]` (`none` when `symeig` raises `RuntimeError`);
`ellipk`, `ellipj`, `sqrt`, `pi` are `scipy.special.ellipk`,
`scipy.special.ellipj` (returning `(sn, cn, dn)`), `np.sqrt`, `math.pi`;
`minres` is the shifted MINRES solver, returning one stacked solve slice
per shift;
`rhsNorms` are the flattened entries of `rhs.norm(dim=-2, keepdim=True)`
and `invQuadRes` those of `(no_shift_solves * rhs).sum(dim=-2).mul_(-1)`,
recorded as observations because `M` is abstract. -/
structure Env (M : Type) where
  statsOn : Bool
  lanczosEigs : Option BTensor
  ellipk : ℚ → ℚ
  ellipj : ℚ → ℚ → ℚ × ℚ × ℚ
  sqrt : ℚ → ℚ
  pi : ℚ
  minres : (M → M) → M → ℚ → List BTensor → List M
  rhsNorms : List ℚ
  invQuadRes : List ℚ

/-- The arguments of `contour_integral_quad`: `rhs` (with its tensor shape
recorded separately, since `M` is abstract), `inverse`, the optional
precomputed `weights` and `shifts`, and the two iteration counts.
Caller-supplied `shifts`/`weights` are lists of per-shift batched slices,
matching the stacked layout the derivation branch produces. -/
structure Args (M : Type) where
  rhs : M
  rhsShape : List ℕ
  inverse : Bool
  weights : Option (List BTensor)
  shifts : Option (List BTensor)
  maxLanczosIter : ℕ
  numContourQuadrature : ℕ

/-- Modelled from the spec: `_mul_broadcast_shape` (from
`gpytorch/utils/broadcasting.py`, which is not among the provided sources)
computes the combined broadcast of two shapes NumPy-style: align the
shapes on the right, pad the shorter one with 1s, and take the elementwise
maximum (so a 1 broadcasts against any size; incompatible unequal sizes,
which the real helper rejects fatally, are out of the claims' scope). -/
def mulBroadcastShape (a b : List ℕ) : List ℕ :=
  List.zipWith max
    (List.replicate (max a.length b.length - a.length) 1 ++ a)
    (List.replicate (max a.length b.length - b.length) 1 ++ b)

/-- `output_batch_shape = _mul_broadcast_shape(lazy_tensor.batch_shape, rhs.shape[:-2])`. -/
def output_batch_shape {M : Type} (op : Operator M) (args : Args M) : List ℕ :=
  mulBroadcastShape op.batchShape args.rhsShape.dropLast.dropLast

/-- The `try/except` block choosing the eigenvalue estimates:
`approx_eigs = lanczos_mat.symeig()[0]`, with a `raise RuntimeError` when
`approx_eigs.min() <= 0`; any `RuntimeError` (including `symeig`'s own
numerical failure, modelled as `lanczosEigs = none`) is caught and answered
with `approx_eigs = lazy_tensor.diag()`. The embedding is a total function,
so no error ever escapes this step. -/
def approx_eigs {M : Type} (env : Env M) (op : Operator M) : BTensor :=
  match env.lanczosEigs with
  | none => op.diag
  | some e => if minAll e ≤ 0 then op.diag else e

/-- `max_eig = approx_eigs.max(dim=-1)[0]`. -/
def max_eig {M : Type} (env : Env M) (op : Operator M) : BTensor :=
  reduceLast listMax (approx_eigs env op)

/-- `min_eig = approx_eigs.min(dim=-1)[0]`. -/
def min_eig {M : Type} (env : Env M) (op : Operator M) : BTensor :=
  reduceLast listMin (approx_eigs env op)

/-- `k2 = min_eig / max_eig` (elementwise). -/
def k2 {M : Type} (env : Env M) (op : Operator M) : BTensor :=
  ⟨(min_eig env op).shape, List.zipWith (· / ·) (min_eig env op).data (max_eig env op).data⟩

/-- One iteration of the per-batch-element contour loop, at quadrature point
`j` (0-based; the source's `np.arange(1, N + 1) - 0.5` makes the point
`(j + 1/2) * Kp / N`): computes `(sub_shifts[j], sub_weights[j])` exactly as
the loop body does, including the in-place redefinitions `cn = 1.0 / cn`,
`dn = dn * cn`, `sn = 1j * sn * cn`, then `w = sqrt(sub_min_eig) * sn`,
`w_pow2 = np.real(np.power(w, 2))` and
`dzdt = cn * dn` scaled by `constant = -2 * Kp * sqrt(sub_min_eig) / (pi * N)`. -/
def ciqNode {M : Type} (env : Env M) (subK2 subMinEig : ℚ) (N j : ℕ) : ℚ × ℚ :=
  let Kp := env.ellipk (1 - subK2)
  let u := ((j : ℚ) + 1 / 2) * Kp / (N : ℚ)
  let scd := env.ellipj u (1 - subK2)
  let sn := scd.1
  let cn := scd.2.1
  let dn := scd.2.2
  let cn1 := 1 / cn
  let dn1 := dn * cn1
  let snc := Cx.mul Cx.I (Cx.ofRat (sn * cn1))
  let w := Cx.smul (env.sqrt subMinEig) snc
  let constant := -2 * Kp * env.sqrt subMinEig / (env.pi * (N : ℚ))
  ((Cx.mul w w).re, cn1 * dn1 * constant)

/-- The rows of `flat_shifts` after the loop: row 0 is the zero row that
`torch.zeros` initialised and the loop never writes
(`flat_shifts[1:, i].copy_(sub_shifts)`); row `j + 1` holds quadrature point
`j`'s shift for each flattened batch element `i` (the loop's
`enumerate(zip(k2.flatten().tolist(), min_eig.flatten().tolist()))`). -/
def derivedShiftRows {M : Type} (env : Env M) (op : Operator M) (N : ℕ) : List (List ℚ) :=
  List.replicate (k2 env op).data.length 0 ::
    (List.range N).map fun j =>
      (List.range (k2 env op).data.length).map fun i =>
        (ciqNode env ((k2 env op).data.getD i 0) ((min_eig env op).data.getD i 0) N j).1

/-- The rows of `flat_weights` after the loop (`flat_weights[:, i].copy_(sub_weights)`). -/
def derivedWeightRows {M : Type} (env : Env M) (op : Operator M) (N : ℕ) : List (List ℚ) :=
  (List.range N).map fun j =>
    (List.range (k2 env op).data.length).map fun i =>
      (ciqNode env ((k2 env op).data.getD i 0) ((min_eig env op).data.getD i 0) N j).2

/-- `shifts = flat_shifts.view(num_contour_quadrature + 1, *k2.shape)`:
the stacked shift slices, each of batch shape `k2.shape`. -/
def derivedShifts {M : Type} (env : Env M) (op : Operator M) (N : ℕ) : List BTensor :=
  (derivedShiftRows env op N).map fun r => ⟨(k2 env op).shape, r⟩

/-- `weights = flat_weights.view(num_contour_quadrature, *k2.shape, 1, 1)`. -/
def derivedWeights {M : Type} (env : Env M) (op : Operator M) (N : ℕ) : List BTensor :=
  (derivedWeightRows env op N).map fun r => ⟨(k2 env op).shape ++ [1, 1], r⟩

/-- The branch condition of the derivation step: the source runs the whole
shift/weight derivation under `if shifts is None:`. -/
def derivationRun {M : Type} (args : Args M) : Bool :=
  args.shifts.isNone

/-- The shift slices handed to `minres`: the caller's `shifts` when supplied;
otherwise the derived ones, each expanded to `output_batch_shape` when
`k2.shape != output_batch_shape`. -/
def ciqShiftsUsed {M : Type} (env : Env M) (op : Operator M) (args : Args M) : List BTensor :=
  match args.shifts with
  | some s => s
  | none =>
    if (k2 env op).shape ≠ output_batch_shape op args then
      (derivedShifts env op args.numContourQuadrature).map
        fun s => s.expand (output_batch_shape op args)
    else
      derivedShifts env op args.numContourQuadrature

/-- The weights in scope at the return statement: the caller's `weights`
(possibly `none`) when `shifts` was supplied, since the derivation branch is
then skipped entirely; otherwise the derived ones, each expanded to
`output_batch_shape ++ [1, 1]` when `k2.shape != output_batch_shape`
(`w.expand(*output_batch_shape, 1, 1)`). -/
def ciqWeightsUsed {M : Type} (env : Env M) (op : Operator M) (args : Args M) :
    Option (List BTensor) :=
  match args.shifts with
  | some _ => args.weights
  | none =>
    some
      (if (k2 env op).shape ≠ output_batch_shape op args then
        (derivedWeights env op args.numContourQuadrature).map
          fun w => w.expand (output_batch_shape op args ++ [1, 1])
      else
        derivedWeights env op args.numContourQuadrature)

/-- The 4-tuple `contour_integral_quad` returns:
`(solves, weights, no_shift_solves, shifts)`. -/
structure CiqResult (M : Type) where
  solves : List M
  weights : Option (List BTensor)
  noShiftSolves : Option M
  shifts : List BTensor
  deriving DecidableEq

/-- `contour_integral_quad`: derive (or take) shifts and weights, run
`minres(lambda v: lazy_tensor._matmul(v), rhs, value=-1, shifts=shifts)`,
peel off `no_shift_solves = solves[0]`, keep `solves = solves[1:]`, and
apply `lazy_tensor._matmul` once more when `inverse` is false
(`solves[0]` on an empty stack raises in Python; `head?` models that edge
as `none`). The diagnostics block writes only to the external stats sink,
not to the returned tuple; its division structure is captured by
`divisorsUsed` below and its failure mode (multiplying the inverse solves
by a still-`None` `weights`) by `contour_integral_quad_call` below. -/
def contour_integral_quad {M : Type} (env : Env M) (op : Operator M) (args : Args M) :
    CiqResult M :=
  let shiftsUsed := ciqShiftsUsed env op args
  let allSolves := env.minres op.matmul args.rhs (-1) shiftsUsed
  let invSolves := allSolves.tail
  ⟨if args.inverse then invSolves else invSolves.map op.matmul,
    ciqWeightsUsed env op args, allSolves.head?, shiftsUsed⟩

/-- The full call including the diagnostics block's failure mode: when
`settings.record_ciq_stats.on()` and the local `weights` is still `None`
(shifts supplied without weights), the diagnostics expression
`(inverse_solves * weights)` multiplies a tensor by `None` and raises
`TypeError`, so the call never reaches its `return` — modelled as `none`.
In every other configuration the call returns the 4-tuple. -/
def contour_integral_quad_call {M : Type} (env : Env M) (op : Operator M) (args : Args M) :
    Option (CiqResult M) :=
  if env.statsOn = true ∧ ciqWeightsUsed env op args = none then none
  else some (contour_integral_quad env op args)

/-- The divisors of the diagnostics block, which the source clamps before
dividing: the entries of `rhs.norm(dim=-2, keepdim=True).clamp_min_(1e-10)`
and of `inv_quad_res.clamp_min_(1e-5)`; both divisions happen only when
`settings.record_ciq_stats.on()`. -/
def clampedDivisorsUsed {M : Type} (env : Env M) : List ℚ :=
  if env.statsOn then
    env.rhsNorms.map (fun x => max x (1 / 10 ^ 10))
      ++ env.invQuadRes.map (fun x => max x (1 / 10 ^ 5))
  else []

/-- Every denominator value reaching a division site of the condition-number
and residual-normalization computations, in source order: the entries of
`max_eig` (the elementwise division `k2 = min_eig / max_eig`), then
`k2.mean()` (the division `1.0 / k2.mean()` recording the condition number,
executed only when stats are on) — both only when the derivation branch runs —
then the clamped diagnostics divisors. -/
def divisorsUsed {M : Type} (env : Env M) (op : Operator M) (args : Args M) : List ℚ :=
  (if args.shifts.isNone then
    (max_eig env op).data ++ (if env.statsOn then [listMean (k2 env op).data] else [])
  else [])
    ++ clampedDivisorsUsed env

/-- Formula stated by the spec for a derived shift value: the real part of
the square of `sqrt(min_eig)` times the transformed Jacobi `sn` value
`1j * sn / cn` at the contour point. -/
def specShift {M : Type} (env : Env M) (subK2 subMinEig : ℚ) (N j : ℕ) : ℚ :=
  let Kp := env.ellipk (1 - subK2)
  let u := ((j : ℚ) + 1 / 2) * Kp / (N : ℚ)
  let scd := env.ellipj u (1 - subK2)
  let snT := Cx.mul Cx.I (Cx.ofRat (scd.1 / scd.2.1))
  let w := Cx.mul (Cx.ofRat (env.sqrt subMinEig)) snT
  (Cx.mul w w).re

/-- Formula stated by the spec for a derived quadrature weight: the
transformed `cn * dn` value `(1 / cn) * (dn / cn)` at the contour point,
times the constant `-2 * Kp * sqrt(min_eig) / (pi * N)`. -/
def specWeight {M : Type} (env : Env M) (subK2 subMinEig : ℚ) (N j : ℕ) : ℚ :=
  let Kp := env.ellipk (1 - subK2)
  let u := ((j : ℚ) + 1 / 2) * Kp / (N : ℚ)
  let scd := env.ellipj u (1 - subK2)
  (1 / scd.2.1) * (scd.2.2 / scd.2.1) * (-2 * Kp * env.sqrt subMinEig / (env.pi * (N : ℚ)))

/-- Embedding of `gpytorch/lazy/non_lazy_variable.py`: `NonLazyVariable`
wraps a dense matrix `var`; only the members the claims mention are
modelled. -/
structure NonLazyVariable (α : Type) (m n : ℕ) where
  var : Matrix (Fin m) (Fin n) α

/-- `evaluate(self): return self.var`. -/
def NonLazyVariable.evaluate {α : Type} {m n : ℕ} (t : NonLazyVariable α m n) :
    Matrix (Fin m) (Fin n) α :=
  t.var

/-- `_transpose_nonbatch(self): return NonLazyVariable(self.var.transpose(-1, -2))`:
on a matrix, swapping the last two dimensions is the matrix transpose. -/
def NonLazyVariable._transpose_nonbatch {α : Type} {m n : ℕ} (t : NonLazyVariable α m n) :
    NonLazyVariable α n m :=
  ⟨t.var.transpose⟩

/-- Concrete environment over `M := ℚ` used to instantiate the theorems:
the Lanczos eigenvalue estimate succeeds with eigenvalues `[1, 4]`, the
special functions are simple total stand-ins, and the solver answers every
shift with `rhs` itself. -/
def wEnv : Env ℚ :=
  ⟨false, some ⟨[2], [1, 4]⟩, fun m => m, fun u m => (u, 2, m), fun x => x, 3,
    fun _ r _ s => s.map fun _ => r, [], []⟩

/-- Concrete environment in which the Lanczos eigen-decomposition raises
(`lanczosEigs = none`) and no diagnostics are recorded. -/
def wEnvFail : Env ℚ :=
  ⟨false, none, fun m => m, fun u m => (u, 2, m), fun x => x, 3,
    fun _ r _ s => s.map fun _ => r, [], []⟩

/-- Concrete environment with the diagnostics sink active. -/
def wEnvStats : Env ℚ :=
  ⟨true, none, fun m => m, fun u m => (u, 2, m), fun x => x, 3,
    fun _ r _ s => s.map fun _ => r, [0], [1]⟩

/-- Concrete unbatched operator: `matmul` adds one (so an extra operator
application is observable) and `diag()` is the single value `0`. -/
def wOp : Operator ℚ :=
  ⟨[], fun x => x + 1, ⟨[1], [0]⟩⟩

/-- Arguments deriving shifts internally, `inverse = True`, one quadrature point. -/
def wArgs : Args ℚ :=
  ⟨5, [3, 1], true, none, none, 7, 1⟩

/-- Arguments deriving shifts internally, `inverse = False`. -/
def wArgsF : Args ℚ :=
  ⟨5, [3, 1], false, none, none, 7, 1⟩

/-- Arguments whose `rhs` has an extra leading batch dimension, so
`output_batch_shape = [2]` differs from the operator's (empty) batch shape. -/
def wArgs8 : Args ℚ :=
  ⟨5, [2, 3, 1], true, none, none, 7, 1⟩

/-- Arguments supplying precomputed `shifts` but leaving `weights = None`. -/
def wArgsSO : Args ℚ :=
  ⟨5, [3, 1], true, none, some [⟨[], [0]⟩, ⟨[], [2]⟩], 7, 1⟩

/-- Arguments supplying both precomputed `shifts` and `weights`. -/
def wArgsBoth : Args ℚ :=
  ⟨5, [3, 1], true, some [⟨[], [9]⟩], some [⟨[], [0]⟩, ⟨[], [2]⟩], 7, 1⟩

/-- Arguments supplying precomputed `weights` but not `shifts`. -/
def wArgsWO : Args ℚ :=
  ⟨5, [3, 1], true, some [⟨[], [9]⟩], none, 7, 1⟩

/-- Concrete environment over `M := Bool` (used where a fully
kernel-computable instantiation is convenient). -/
def bEnv : Env Bool :=
  ⟨false, none, fun m => m, fun u m => (u, 2, m), fun x => x, 3,
    fun _ r _ s => s.map fun _ => r, [], []⟩

/-- Concrete operator over `M := Bool` whose `matmul` is negation, so one
extra operator application is observable on any solve. -/
def bOp : Operator Bool :=
  ⟨[], fun b => !b, ⟨[1], [0]⟩⟩

/-- Arguments over `M := Bool` supplying precomputed `shifts`, with
`inverse = False`. -/
def bArgsC7 : Args Bool :=
  ⟨true, [3, 1], false, none, some [⟨[], [0]⟩, ⟨[], [2]⟩], 7, 1⟩

/-- Concrete environment over `M := Bool` with the diagnostics sink active. -/
def bEnvStats : Env Bool :=
  ⟨true, none, fun m => m, fun u m => (u, 2, m), fun x => x, 3,
    fun _ r _ s => s.map fun _ => r, [0], [1]⟩

theorem replicate_getD_zero (n k : ℕ) : (List.replicate n (0 : ℚ)).getD k 0 = 0 := by
  rcases Nat.lt_or_ge k n with h | h
  · simp [List.getD_eq_getElem?_getD, List.getElem?_replicate, h]
  · simp [List.getD_eq_getElem?_getD, List.getElem?_replicate, Nat.not_lt.mpr h]

theorem ciqNode_fst {M : Type} (env : Env M) (a b : ℚ) (N j : ℕ) :
    (ciqNode env a b N j).1 = specShift env a b N j := by
  simp only [ciqNode, specShift, Cx.mul, Cx.I, Cx.ofRat, Cx.smul]
  ring

theorem ciqNode_snd {M : Type} (env : Env M) (a b : ℚ) (N j : ℕ) :
    (ciqNode env a b N j).2 = specWeight env a b N j := by
  simp only [ciqNode, specWeight, Cx.mul, Cx.I, Cx.ofRat, Cx.smul]
  ring

theorem derivedShifts_length {M : Type} (env : Env M) (op : Operator M) (N : ℕ) :
    (derivedShifts env op N).length = N + 1 := by
  simp [derivedShifts, derivedShiftRows]

theorem ciqShiftsUsed_length_of_none {M : Type} (env : Env M) (op : Operator M)
    (args : Args M) (h : args.shifts = none) :
    (ciqShiftsUsed env op args).length = args.numContourQuadrature + 1 := by
  simp only [ciqShiftsUsed, h]
  by_cases hne : (k2 env op).shape ≠ output_batch_shape op args
  · simp [hne, derivedShifts_length]
  · simp [hne, derivedShifts_length]

theorem contour_shifts_eq {M : Type} (env : Env M) (op : Operator M) (args : Args M) :
    (contour_integral_quad env op args).shifts = ciqShiftsUsed env op args := rfl

theorem contour_weights_eq {M : Type} (env : Env M) (op : Operator M) (args : Args M) :
    (contour_integral_quad env op args).weights = ciqWeightsUsed env op args := rfl

/-- Claim C1: for every call to `contour_integral_quad` with `inverse=False`,
the operator's matrix-vector product is applied exactly once more to the
stacked inverse solves (the tail of the solver's stacked output) before they
are returned; with `inverse=True` the inverse solves are returned without
this extra application. -/
theorem ciq_extra_matmul {M : Type} (env : Env M) (op : Operator M) (args : Args M) :
    (args.inverse = false →
      (contour_integral_quad env op args).solves
        = ((env.minres op.matmul args.rhs (-1) (ciqShiftsUsed env op args)).tail).map op.matmul)
    ∧ (args.inverse = true →
      (contour_integral_quad env op args).solves
        = (env.minres op.matmul args.rhs (-1) (ciqShiftsUsed env op args)).tail) := by
  constructor <;> intro h <;> simp [contour_integral_quad, h]

/-- Witness for C1 at a concrete call with `inverse = False`. -/
theorem ciq_extra_matmul_witness :
    (contour_integral_quad wEnv wOp wArgsF).solves
      = ((wEnv.minres wOp.matmul wArgsF.rhs (-1) (ciqShiftsUsed wEnv wOp wArgsF)).tail).map
          wOp.matmul :=
  (ciq_extra_matmul wEnv wOp wArgsF).1 rfl

/-- Claim C4: if the eigen-decomposition of the Lanczos tridiagonal matrix
raises (modelled by `lanczosEigs = none`) or yields a minimum eigenvalue
`<= 0`, the eigenvalue estimates used for the contour become the operator's
`diag()` values — so the extremal estimates are those of `diag()` — and no
error is propagated (the embedding of this path is a total function). -/
theorem ciq_eig_fallback {M : Type} (env : Env M) (op : Operator M)
    (h : env.lanczosEigs = none ∨ ∃ e, env.lanczosEigs = some e ∧ minAll e ≤ 0) :
    approx_eigs env op = op.diag
    ∧ min_eig env op = reduceLast listMin op.diag
    ∧ max_eig env op = reduceLast listMax op.diag := by
  have hd : approx_eigs env op = op.diag := by
    rcases h with h | ⟨e, he, hle⟩
    · simp [approx_eigs, h]
    · simp [approx_eigs, he, hle]
  exact ⟨hd, by simp [min_eig, hd], by simp [max_eig, hd]⟩

/-- Witness for C4 at a concrete environment whose eigen-decomposition raised. -/
theorem ciq_eig_fallback_witness :
    approx_eigs wEnvFail wOp = wOp.diag
    ∧ min_eig wEnvFail wOp = reduceLast listMin wOp.diag
    ∧ max_eig wEnvFail wOp = reduceLast listMax wOp.diag :=
  ciq_eig_fallback wEnvFail wOp (Or.inl rfl)

/-- Counterexample to C5 as stated: with `shifts` supplied and `weights`
left `None`, the derivation branch is skipped even though the caller did not
supply both precomputed `shifts` and `weights`, so "skipped exactly when the
caller supplies precomputed shifts/weights" fails. -/
theorem ciq_skip_condition_cex :
    ¬ ((derivationRun wArgsSO = false)
        ↔ (wArgsSO.shifts.isSome = true ∧ wArgsSO.weights.isSome = true)) := by
  decide

/-- Claim C5 (amended): the shift/weight-derivation step is skipped exactly
when the caller supplies precomputed `shifts` (whether or not `weights` are
supplied); when the caller supplies both, the caller-supplied weights are
used in place of derived ones (and the supplied shifts are passed through);
when weights are supplied without shifts, the derivation runs and the
derived (possibly expanded) weights replace the caller-supplied ones. -/
theorem ciq_skip_condition_amended {M : Type} (env : Env M) (op : Operator M) (args : Args M) :
    (derivationRun args = false ↔ args.shifts.isSome = true)
    ∧ (∀ S W, args.shifts = some S → args.weights = some W →
        (contour_integral_quad env op args).weights = some W
        ∧ (contour_integral_quad env op args).shifts = S)
    ∧ (∀ W, args.shifts = none → args.weights = some W →
        (contour_integral_quad env op args).weights
          = some (if (k2 env op).shape ≠ output_batch_shape op args then
              (derivedWeights env op args.numContourQuadrature).map
                fun w => w.expand (output_batch_shape op args ++ [1, 1])
            else derivedWeights env op args.numContourQuadrature)) := by
  refine ⟨?_, ?_, ?_⟩
  · cases h : args.shifts <;> simp [derivationRun, h]
  · intro S W hS hW
    constructor
    · rw [contour_weights_eq]
      simp [ciqWeightsUsed, hS, hW]
    · rw [contour_shifts_eq]
      simp [ciqShiftsUsed, hS]
  · intro W hS hW
    rw [contour_weights_eq]
    simp [ciqWeightsUsed, hS]

/-- Witness for C5 (amended) at two concrete calls: one supplying both
shifts and weights (supplied weights returned), one supplying weights only
(derived weights returned instead). -/
theorem ciq_skip_condition_amended_witness :
    (contour_integral_quad wEnv wOp wArgsBoth).weights = some [⟨[], [9]⟩]
    ∧ (contour_integral_quad wEnv wOp wArgsWO).weights
        = some (if (k2 wEnv wOp).shape ≠ output_batch_shape wOp wArgsWO then
            (derivedWeights wEnv wOp wArgsWO.numContourQuadrature).map
              fun w => w.expand (output_batch_shape wOp wArgsWO ++ [1, 1])
          else derivedWeights wEnv wOp wArgsWO.numContourQuadrature) :=
  ⟨((ciq_skip_condition_amended wEnv wOp wArgsBoth).2.1 [⟨[], [0]⟩, ⟨[], [2]⟩] [⟨[], [9]⟩]
      rfl rfl).1,
    (ciq_skip_condition_amended wEnv wOp wArgsWO).2.2 [⟨[], [9]⟩] rfl rfl⟩

/-- Counterexample to C9 as stated: with the diagnostics sink active, a
call supplying `shifts` and leaving `weights = None` raises `TypeError` at
the diagnostics block's `(inverse_solves * weights)` instead of returning,
so it does not return `None` as its weights component — it returns nothing
at all. -/
theorem ciq_passthrough_cex :
    ¬ ∃ r, contour_integral_quad_call bEnvStats bOp bArgsC7 = some r
        ∧ r.weights = none ∧ r.shifts = [⟨[], [0]⟩, ⟨[], [2]⟩] := by
  rintro ⟨r, hr, -, -⟩
  have hnone : contour_integral_quad_call bEnvStats bOp bArgsC7 = none := by
    simp [contour_integral_quad_call, bEnvStats, ciqWeightsUsed, bArgsC7]
  rw [hnone] at hr
  exact Option.noConfusion hr

/-- Claim C9 (amended): when the caller supplies `shifts` while leaving
`weights` at its default `None`, the derivation branch is skipped; if the
diagnostics sink is inactive the call returns, with `None` as its second
(weights) component and the caller-supplied shifts unchanged as its fourth
component; if the diagnostics sink is active the call raises `TypeError` in
the diagnostics block and returns nothing. -/
theorem ciq_supplied_shifts_passthrough {M : Type} (env : Env M) (op : Operator M)
    (args : Args M) (S : List BTensor) (hS : args.shifts = some S)
    (hW : args.weights = none) :
    derivationRun args = false
    ∧ (env.statsOn = false →
        contour_integral_quad_call env op args = some (contour_integral_quad env op args)
        ∧ (contour_integral_quad env op args).weights = none
        ∧ (contour_integral_quad env op args).shifts = S)
    ∧ (env.statsOn = true → contour_integral_quad_call env op args = none) := by
  refine ⟨by simp [derivationRun, hS], ?_, ?_⟩
  · intro hs
    refine ⟨by simp [contour_integral_quad_call, hs], ?_, ?_⟩
    · rw [contour_weights_eq]
      simp [ciqWeightsUsed, hS, hW]
    · rw [contour_shifts_eq]
      simp [ciqShiftsUsed, hS]
  · intro hs
    have hw : ciqWeightsUsed env op args = none := by simp [ciqWeightsUsed, hS, hW]
    simp [contour_integral_quad_call, hs, hw]

/-- Witness for C9 (amended) at two concrete calls supplying shifts only:
one with the diagnostics sink off (normal passthrough return), one with it
on (the call raises and returns nothing). -/
theorem ciq_supplied_shifts_passthrough_witness :
    ((contour_integral_quad wEnv wOp wArgsSO).weights = none
      ∧ (contour_integral_quad wEnv wOp wArgsSO).shifts = [⟨[], [0]⟩, ⟨[], [2]⟩])
    ∧ contour_integral_quad_call bEnvStats bOp bArgsC7 = none :=
  ⟨⟨(((ciq_supplied_shifts_passthrough wEnv wOp wArgsSO [⟨[], [0]⟩, ⟨[], [2]⟩]
        rfl rfl).2.1) rfl).2.1,
    (((ciq_supplied_shifts_passthrough wEnv wOp wArgsSO [⟨[], [0]⟩, ⟨[], [2]⟩]
        rfl rfl).2.1) rfl).2.2⟩,
    (ciq_supplied_shifts_passthrough bEnvStats bOp bArgsC7 [⟨[], [0]⟩, ⟨[], [2]⟩]
      rfl rfl).2.2 rfl⟩

/-- Claim C10: for every matrix `var`, applying `_transpose_nonbatch` twice
to `NonLazyVariable(var)` yields a variable whose `evaluate()` equals `var`
(transposing the last two dimensions is an involution), and `evaluate()` on
any `NonLazyVariable` returns exactly the wrapped matrix unchanged. -/
theorem nonlazy_transpose_involution {α : Type} (m n : ℕ)
    (var : Matrix (Fin m) (Fin n) α) :
    ((NonLazyVariable.mk var)._transpose_nonbatch._transpose_nonbatch).evaluate = var
    ∧ (NonLazyVariable.mk var).evaluate = var
    ∧ ∀ t : NonLazyVariable α m n, t.evaluate = t.var :=
  ⟨Matrix.transpose_transpose var, rfl, fun _ => rfl⟩

/-- Claim C2: in the shift/weight-derivation branch, for every batch element
`i` the computed shift value at quadrature point `j` (stored in row `j + 1`
of `flat_shifts`) equals the real part of the square of `sqrt(min_eig)`
times the transformed Jacobi `sn` value at that contour point, and the
computed quadrature weight equals the transformed `cn * dn` value there
multiplied by the constant `-2 * Kp * sqrt(min_eig) / (pi * N)`, where
`Kp = ellipk(1 - k2)`. -/
theorem ciq_shift_weight_formula {M : Type} (env : Env M) (op : Operator M) (N i j : ℕ)
    (hi : i < (k2 env op).data.length) (hj : j < N) :
    ((derivedShiftRows env op N).getD (j + 1) []).getD i 0
      = specShift env ((k2 env op).data.getD i 0) ((min_eig env op).data.getD i 0) N j
    ∧ ((derivedWeightRows env op N).getD j []).getD i 0
      = specWeight env ((k2 env op).data.getD i 0) ((min_eig env op).data.getD i 0) N j := by
  constructor
  · rw [derivedShiftRows, List.getD_cons_succ]
    simp [List.getD_eq_getElem?_getD, List.getElem?_map, List.getElem?_range, hi, hj,
      ciqNode_fst]
  · rw [derivedWeightRows]
    simp [List.getD_eq_getElem?_getD, List.getElem?_map, List.getElem?_range, hi, hj,
      ciqNode_snd]

/-- Witness for C2 at the concrete environment, batch element 0, point 0. -/
theorem ciq_shift_weight_formula_witness :
    ((derivedShiftRows wEnv wOp 1).getD 1 []).getD 0 0
      = specShift wEnv ((k2 wEnv wOp).data.getD 0 0) ((min_eig wEnv wOp).data.getD 0 0) 1 0
    ∧ ((derivedWeightRows wEnv wOp 1).getD 0 []).getD 0 0
      = specWeight wEnv ((k2 wEnv wOp).data.getD 0 0) ((min_eig wEnv wOp).data.getD 0 0) 1 0 :=
  ciq_shift_weight_formula wEnv wOp 1 0 0 (by decide) (by decide)

theorem ciqShiftsUsed_head_zero {M : Type} (env : Env M) (op : Operator M)
    (args : Args M) (h : args.shifts = none) :
    ∀ x ∈ ((ciqShiftsUsed env op args).headD ⟨[], []⟩).data, x = 0 := by
  intro x hx
  simp only [ciqShiftsUsed, h] at hx
  by_cases hne : (k2 env op).shape ≠ output_batch_shape op args
  · rw [if_pos hne] at hx
    simp only [derivedShifts, derivedShiftRows, List.map_cons, List.headD_cons,
      BTensor.expand, List.mem_map] at hx
    obtain ⟨ix, _, rfl⟩ := hx
    exact replicate_getD_zero _ _
  · rw [if_neg hne] at hx
    simp only [derivedShifts, derivedShiftRows, List.map_cons, List.headD_cons] at hx
    exact List.eq_of_mem_replicate hx

theorem ciqShiftsUsed_uniform_length {M : Type} (env : Env M) (op : Operator M)
    (args : Args M) (h : args.shifts = none) :
    ∀ s ∈ ciqShiftsUsed env op args,
      s.data.length = ((ciqShiftsUsed env op args).headD ⟨[], []⟩).data.length := by
  intro s hs
  simp only [ciqShiftsUsed, h] at hs ⊢
  by_cases hne : (k2 env op).shape ≠ output_batch_shape op args
  · rw [if_pos hne] at hs ⊢
    obtain ⟨t, _, rfl⟩ := List.mem_map.mp hs
    simp [derivedShifts, derivedShiftRows, List.map_cons, List.headD_cons, BTensor.expand]
  · rw [if_neg hne] at hs ⊢
    obtain ⟨r, hr, rfl⟩ := List.mem_map.mp hs
    simp only [derivedShiftRows, List.mem_cons, List.mem_map, List.mem_range] at hr
    rcases hr with rfl | ⟨jj, _, rfl⟩ <;>
      simp [derivedShifts, derivedShiftRows, List.map_cons, List.headD_cons]

/-- Claim C3: whenever shifts are derived internally, the returned shift
sequence has exactly `num_contour_quadrature + 1` per-batch slices, its
slice at index 0 is exactly 0 at every batch element, and every slice
carries the same number of per-batch entries — all regardless of the
operator, the environment, and `num_contour_quadrature`. -/
theorem ciq_shift_sequence_invariant {M : Type} (env : Env M) (op : Operator M)
    (args : Args M) (h : args.shifts = none) :
    (contour_integral_quad env op args).shifts.length = args.numContourQuadrature + 1
    ∧ (∀ x ∈ ((contour_integral_quad env op args).shifts.headD ⟨[], []⟩).data, x = 0)
    ∧ ∀ s ∈ (contour_integral_quad env op args).shifts,
        s.data.length
          = ((contour_integral_quad env op args).shifts.headD ⟨[], []⟩).data.length := by
  rw [contour_shifts_eq]
  exact ⟨ciqShiftsUsed_length_of_none env op args h,
    ciqShiftsUsed_head_zero env op args h,
    ciqShiftsUsed_uniform_length env op args h⟩

/-- Witness for C3 at a concrete derivation call. -/
theorem ciq_shift_sequence_invariant_witness :
    (contour_integral_quad wEnv wOp wArgs).shifts.length = wArgs.numContourQuadrature + 1 :=
  (ciq_shift_sequence_invariant wEnv wOp wArgs rfl).1

/-- Claim C8: when the batch shape of the per-element computation
(`k2.shape`, derived from the operator's batch shape) differs from the
combined broadcast shape of the operator's and `rhs`'s leading dimensions,
the derived shifts and weights are expanded to that combined output batch
shape (weights with trailing `[1, 1]` dims) before the shifted solver is
invoked on them. -/
theorem ciq_broadcast_expand {M : Type} (env : Env M) (op : Operator M) (args : Args M)
    (h : args.shifts = none)
    (hne : (k2 env op).shape ≠ output_batch_shape op args) :
    (∀ s ∈ ciqShiftsUsed env op args, s.shape = output_batch_shape op args)
    ∧ ∀ w ∈ (ciqWeightsUsed env op args).getD [],
        w.shape = output_batch_shape op args ++ [1, 1] := by
  constructor
  · intro s hs
    simp only [ciqShiftsUsed, h, if_pos hne] at hs
    obtain ⟨t, _, rfl⟩ := List.mem_map.mp hs
    rfl
  · intro w hw
    simp only [ciqWeightsUsed, h, if_pos hne, Option.getD_some] at hw
    obtain ⟨t, _, rfl⟩ := List.mem_map.mp hw
    rfl

/-- Witness for C8: with an unbatched operator and a `rhs` carrying an extra
leading dimension of size 2, the slice passed to the solver has the combined
batch shape `[2]`. -/
theorem ciq_broadcast_expand_witness :
    (⟨[2], [0, 0]⟩ : BTensor).shape = output_batch_shape wOp wArgs8 :=
  (ciq_broadcast_expand wEnv wOp wArgs8 rfl (by decide)).1 ⟨[2], [0, 0]⟩ (by decide)

/-- Counterexample to C7 as stated: with `inverse=False` the returned solves
are not the remaining entries of the solver's stacked output — the operator
has been applied to them once more — so the conjunction asserted by the
claim fails at this concrete call. -/
theorem ciq_return_tuple_cex :
    ¬ ((contour_integral_quad bEnv bOp bArgsC7).noShiftSolves
          = (bEnv.minres bOp.matmul bArgsC7.rhs (-1) (ciqShiftsUsed bEnv bOp bArgsC7)).head?
        ∧ (contour_integral_quad bEnv bOp bArgsC7).solves
          = (bEnv.minres bOp.matmul bArgsC7.rhs (-1) (ciqShiftsUsed bEnv bOp bArgsC7)).tail
        ∧ (contour_integral_quad bEnv bOp bArgsC7).weights = ciqWeightsUsed bEnv bOp bArgsC7
        ∧ (contour_integral_quad bEnv bOp bArgsC7).shifts
          = ciqShiftsUsed bEnv bOp bArgsC7) := by
  decide

/-- Claim C7 (amended): `contour_integral_quad` returns a 4-tuple
`(solves, weights, unshifted solve, shifts)` in which the unshifted solve is
the index-0 entry of the solver's stacked output, the returned solves are
the remaining `num_contour_quadrature` entries in shift order — exactly
those solutions when `inverse=True`, and the operator applied once to each
of them when `inverse=False` — and the returned weights and shifts are the
ones used. The count uses the solver's contract of one stacked slice per
shift. -/
theorem ciq_return_tuple_amended {M : Type} (env : Env M) (op : Operator M) (args : Args M)
    (hm : ∀ (f : M → M) (r : M) (v : ℚ) (s : List BTensor),
      (env.minres f r v s).length = s.length)
    (h : args.shifts = none) :
    (contour_integral_quad env op args).noShiftSolves
        = (env.minres op.matmul args.rhs (-1) (ciqShiftsUsed env op args)).head?
    ∧ (contour_integral_quad env op args).solves
        = (if args.inverse
            then (env.minres op.matmul args.rhs (-1) (ciqShiftsUsed env op args)).tail
            else ((env.minres op.matmul args.rhs (-1) (ciqShiftsUsed env op args)).tail).map
              op.matmul)
    ∧ (contour_integral_quad env op args).solves.length = args.numContourQuadrature
    ∧ (contour_integral_quad env op args).weights = ciqWeightsUsed env op args
    ∧ (contour_integral_quad env op args).shifts = ciqShiftsUsed env op args := by
  refine ⟨rfl, rfl, ?_, rfl, rfl⟩
  have hlen : (env.minres op.matmul args.rhs (-1) (ciqShiftsUsed env op args)).length
      = args.numContourQuadrature + 1 := by
    rw [hm]
    exact ciqShiftsUsed_length_of_none env op args h
  cases hi : args.inverse <;>
    simp [contour_integral_quad, hi, List.length_tail, hlen]

/-- Witness for C7 (amended) at a concrete derivation call. -/
theorem ciq_return_tuple_amended_witness :
    (contour_integral_quad wEnv wOp wArgs).solves.length = wArgs.numContourQuadrature :=
  (ciq_return_tuple_amended wEnv wOp wArgs (fun f r v s => by simp [wEnv]) rfl).2.2.1

/-- Counterexample to C6 as stated: at a concrete call where the Lanczos
estimate fails and the operator's diagonal is zero, the eigenvalue-ratio
division `k2 = min_eig / max_eig` is performed with the unclamped divisor
`max_eig = 0`, so not every divisor of the condition-number and
residual-normalization computations is positive after clamping. -/
theorem ciq_divisors_cex :
    ¬ ∀ d ∈ divisorsUsed wEnvFail wOp wArgs, 0 < d := by
  decide

/-- Claim C6 (amended): the divisors of the residual-normalization
computations in the diagnostics block are clamped to small positive floors
(`1e-10` for the `rhs` norms, `1e-5` for the inverse-quadrature estimate)
before the division, so those divisions never divide by zero; the
eigenvalue-ratio divisors (`max_eig` in `k2 = min_eig / max_eig` and
`k2.mean()` in the condition number) are used without clamping. -/
theorem ciq_clamped_divisors_amended {M : Type} (env : Env M) (d : ℚ)
    (hd : d ∈ clampedDivisorsUsed env) :
    0 < d ∧ (1 : ℚ) / 10 ^ 10 ≤ d := by
  cases hs : env.statsOn
  · simp [clampedDivisorsUsed, hs] at hd
  · simp only [clampedDivisorsUsed, hs, if_true] at hd
    rcases List.mem_append.mp hd with hmem | hmem <;>
      obtain ⟨x, _, rfl⟩ := List.mem_map.mp hmem
    · exact ⟨lt_of_lt_of_le (by norm_num) (le_max_right _ _), le_max_right _ _⟩
    · exact ⟨lt_of_lt_of_le (by norm_num) (le_max_right _ _),
        le_trans (by norm_num) (le_max_right _ _)⟩

/-- Witness for C6 (amended) at a concrete environment with diagnostics on
and a zero `rhs` norm entry: the clamp floors the divisor at `1e-10`. -/
theorem ciq_clamped_divisors_amended_witness :
    0 < max (0 : ℚ) (1 / 10 ^ 10) ∧ (1 : ℚ) / 10 ^ 10 ≤ max (0 : ℚ) (1 / 10 ^ 10) :=
  ciq_clamped_divisors_amended wEnvStats (max (0 : ℚ) (1 / 10 ^ 10))
    (by simp [clampedDivisorsUsed, wEnvStats])
